import Mathlib

/-!
# Verification of `SimpleVector` (src/simple-vector/simple_vector.h)

Shallow embedding of the templated C++ container `SimpleVector<Type>`.

Modelling choices:
* The container state is the list of *live* elements (`elems`, the values at
  logical positions `[0, size_)` of the C++ object, so `size_ = elems.length`)
  together with the `capacity_` field.  Positions `[size_, capacity_)` of the
  underlying `ArrayPtr` buffer hold unspecified values in C++ and are never
  observable through the public interface (every read is bounded by `size_`,
  `PushBack` assigns `items_[size_]` before incrementing, `Resize` explicitly
  default-fills newly exposed positions), so they are not represented.
* `ArrayPtr<Type>` (file `array_ptr.h`, an external collaborator: a fixed-size
  owning buffer with `Get`, unchecked indexing and `swap`) is not modelled as a
  separate entity; buffer reallocation (`SimpleVector::Reallocate`) becomes a
  change of the `capacity` field with the live elements carried over.
* Machine integers: sizes and capacities are `size_t`; all arithmetic that
  occurs (`capacity_ * 2`, `size_ + 1`, ...) is far below `2^64` for any run
  that fits in memory, and none of the claims concerns wrap-around, so they
  are modelled as `Nat`.
* Exceptions (`std::out_of_range` in `At`) are modelled with `Except`.
-/

/-- Error raised by checked element access (`std::out_of_range`). -/
inductive AccessError where
  | outOfRange
deriving DecidableEq, Repr

/-- State of a `SimpleVector<Type>`: live elements and the `capacity_` field.
The logical size `size_` is `elems.length`. -/
structure SimpleVector (α : Type) where
  elems : List α
  capacity : Nat
deriving DecidableEq, Repr

namespace SimpleVector

variable {α : Type}

/-- Embeds `size_t GetSize() const noexcept { return size_; }` -/
def GetSize (s : SimpleVector α) : Nat :=
  s.elems.length

/-- Embeds `size_t GetCapacity() const noexcept { return capacity_; }` -/
def GetCapacity (s : SimpleVector α) : Nat :=
  s.capacity

/-- Embeds `bool IsEmpty() const noexcept { return size_ == 0; }` -/
def IsEmpty (s : SimpleVector α) : Bool :=
  s.elems.length = 0

/-- Embeds `SimpleVector() noexcept = default;` — size 0, capacity 0, no buffer. -/
def Default : SimpleVector α :=
  ⟨[], 0⟩

/-- Embeds `SimpleVector(size_t size)` — allocates `size` slots, default-initialises
every element (the constructor loop `*it = Type()`), size = capacity = `size`. -/
def FromCount [Inhabited α] (size : Nat) : SimpleVector α :=
  ⟨List.replicate size default, size⟩

/-- Embeds `SimpleVector(size_t size, Type value)` — `std::fill(begin(), end(), value)`. -/
def FromCountValue (size : Nat) (value : α) : SimpleVector α :=
  ⟨List.replicate size value, size⟩

/-- Embeds `SimpleVector(std::initializer_list<Type> init)` — via
`Assign(init, init.size())`: a temporary of size `init.size()` receives the
elements in order and is swapped in, so size = capacity = `init.size()`. -/
def FromList (init : List α) : SimpleVector α :=
  ⟨init, init.length⟩

/-- Embeds `void Reallocate(size_t new_capacity)` — new buffer of `new_capacity`
slots, live elements moved over, capacity updated. -/
def Reallocate (s : SimpleVector α) (new_capacity : Nat) : SimpleVector α :=
  ⟨s.elems, new_capacity⟩

/-- Embeds `void Reserve(size_t new_capacity)` — reallocate only if
`capacity_ < new_capacity`. -/
def Reserve (s : SimpleVector α) (new_capacity : Nat) : SimpleVector α :=
  if s.capacity < new_capacity then Reallocate s new_capacity else s

/-- Embeds `SimpleVector(const ReserveProxyObj&)` — default state, then
`Reserve(obj.GetCapacityToReserve())`. -/
def FromReserve (capacity_to_reserve : Nat) : SimpleVector α :=
  Reserve Default capacity_to_reserve

/-- Embeds `SimpleVector(const SimpleVector& other)` — `Assign(other, other.size_)`:
deep copy, size = capacity = `other.size_`. -/
def Copy (other : SimpleVector α) : SimpleVector α :=
  ⟨other.elems, other.elems.length⟩

/-- Embeds `operator=(const SimpleVector& rhs)` — copy-and-swap (for a non-self
assignment the receiver becomes a fresh copy of `rhs`; the receiver's old
value is discarded, so it does not appear as an argument here). -/
def CopyAssign (rhs : SimpleVector α) : SimpleVector α :=
  Copy rhs

/-- Embeds `SimpleVector(SimpleVector&& other)` — buffer moved,
`size_ = std::exchange(other.size_, 0)`, `capacity_ = std::exchange(other.capacity_, 0)`.
Returns (constructed vector, state of `other` afterwards). -/
def MoveCtor (other : SimpleVector α) : SimpleVector α × SimpleVector α :=
  (⟨other.elems, other.capacity⟩, ⟨[], 0⟩)

/-- Embeds `SimpleVector& operator=(SimpleVector&&) = default;` — C++ generates a
memberwise move: `items_` is move-assigned (buffer ownership transferred away
from the source), but `size_` and `capacity_` are scalars, whose "move" is a
plain copy that leaves the source's `size_` and `capacity_` unchanged.
Returns (new value of the target, source's `size_` after, source's
`capacity_` after). -/
def MoveAssign (src : SimpleVector α) : SimpleVector α × Nat × Nat :=
  (⟨src.elems, src.capacity⟩, src.elems.length, src.capacity)

/-- Modelled from the spec: the buffer owner `ArrayPtr` (file `array_ptr.h`,
not among the sources) performs a "destructive transfer (swap) of ownership"
with "exactly one owner" (spec §2, §5, §6), so move-assigning `items_` away —
as the defaulted `operator=(SimpleVector&&)` on line 81 does — leaves the
source object owning no storage.  This gives the full observable state of
the source object after `b = std::move(a)`: its reported `size_` (copied, not
zeroed), its reported `capacity_` (copied, not zeroed), and the length of the
buffer it still owns, which is 0. -/
def MoveAssignSrcState (src : SimpleVector α) : Nat × Nat × Nat :=
  (src.elems.length, src.capacity, 0)

/-- Embeds `void swap(SimpleVector& other) noexcept` — exchanges buffer, size and
capacity. -/
def Swap (a b : SimpleVector α) : SimpleVector α × SimpleVector α :=
  (b, a)

/-- Embeds `void PushBack(Type item)` — `if (capacity_ == 0) Reallocate(1);`
then `if (size_ == capacity_) Reallocate(capacity_ * 2);`
then `items_[size_] = std::move(item); ++size_;`. -/
def PushBack (s : SimpleVector α) (item : α) : SimpleVector α :=
  let s1 := if s.capacity = 0 then Reallocate s 1 else s
  let s2 := if s1.elems.length = s1.capacity then Reallocate s1 (s1.capacity * 2) else s1
  ⟨s2.elems ++ [item], s2.capacity⟩

/-- Embeds `Iterator Insert(ConstIterator pos, Type value)` with `pos = begin() + i`.
If `size_ < capacity_`: shift `[pos, end)` right, write `value` at `pos`.
Otherwise: `new_capacity = (size_ == 0 ? 1 : capacity_ * 2)`, build a
temporary of that capacity, move prefix, value, suffix, set its size to
`size_ + 1` and swap.  Both branches return an iterator to the inserted
element, i.e. index `i`.  Returns (new state, returned index). -/
def Insert (s : SimpleVector α) (i : Nat) (value : α) : SimpleVector α × Nat :=
  if s.elems.length < s.capacity then
    (⟨s.elems.take i ++ value :: s.elems.drop i, s.capacity⟩, i)
  else
    let new_capacity := if s.elems.length = 0 then 1 else s.capacity * 2
    (⟨s.elems.take i ++ value :: s.elems.drop i, new_capacity⟩, i)

/-- Embeds `void PopBack() noexcept` — `assert(!IsEmpty()); --size_;`. -/
def PopBack (s : SimpleVector α) : SimpleVector α :=
  ⟨s.elems.dropLast, s.capacity⟩

/-- Embeds `Iterator Erase(ConstIterator pos)` with `pos = begin() + i` —
`std::move(it + 1, end(), it); --size_;`, returns `it`, i.e. index `i`. -/
def Erase (s : SimpleVector α) (i : Nat) : SimpleVector α × Nat :=
  (⟨s.elems.take i ++ s.elems.drop (i + 1), s.capacity⟩, i)

/-- Embeds `void Clear() noexcept { size_ = 0; }` — capacity retained. -/
def Clear (s : SimpleVector α) : SimpleVector α :=
  ⟨[], s.capacity⟩

/-- Embeds `void Resize(size_t new_size)` — grow capacity to
`max(new_size, capacity_ * 2)` when `new_size > capacity_`; default-fill the
newly exposed positions `[size_, new_size)` when `new_size > size_`; set
`size_ = new_size`. -/
def Resize [Inhabited α] (s : SimpleVector α) (new_size : Nat) : SimpleVector α :=
  let s1 := if s.capacity < new_size then Reallocate s (max new_size (s.capacity * 2)) else s
  if s1.elems.length < new_size then
    ⟨s1.elems ++ List.replicate (new_size - s1.elems.length) default, s1.capacity⟩
  else
    ⟨s1.elems.take new_size, s1.capacity⟩

/-- Embeds `Type& At(size_t index)` — `if (index >= size_) throw std::out_of_range(...);
return items_[index];` (the `const` overload is textually identical). -/
def At (s : SimpleVector α) (index : Nat) : Except AccessError α :=
  if h : s.elems.length ≤ index then Except.error AccessError.outOfRange
  else Except.ok (s.elems.get ⟨index, Nat.lt_of_not_le h⟩)

/-- Embeds `Type& operator[](size_t index) noexcept` (the mutable overload) —
`assert(index < size_); return items_[index];`.  The assertion becomes the
proof obligation `h`.  (The `const` overload as written asserts
`index < size`, a name that does not exist in the class — see claim C4 —
and therefore has no faithful embedding.) -/
def GetUnchecked (s : SimpleVector α) (index : Nat) (h : index < s.elems.length) : α :=
  s.elems.get ⟨index, h⟩

/-- Embeds `std::equal(first1, last1, first2, last2)` on element ranges. -/
def rangesEqual [DecidableEq α] : List α → List α → Bool
  | [], [] => true
  | _ :: _, [] => false
  | [], _ :: _ => false
  | a :: as, b :: bs => if a = b then rangesEqual as bs else false

/-- Embeds `operator==` — identity shortcut (not representable for values, and
semantically absorbed by reflexivity), then size comparison, then
`std::equal` over the element ranges. -/
def vecEq [DecidableEq α] (lhs rhs : SimpleVector α) : Bool :=
  if lhs.elems.length = rhs.elems.length then rangesEqual lhs.elems rhs.elems
  else false

/-- Embeds `std::lexicographical_compare(first1, last1, first2, last2)`:
`true` iff the first range is lexicographically less than the second. -/
def lexLt [LT α] [DecidableRel (fun a b : α => a < b)] : List α → List α → Bool
  | _, [] => false
  | [], _ :: _ => true
  | a :: as, b :: bs => if a < b then true else if b < a then false else lexLt as bs

/-- Embeds `operator<` — delegates to `std::lexicographical_compare`. -/
def vecLt [LT α] [DecidableRel (fun a b : α => a < b)] (lhs rhs : SimpleVector α) : Bool :=
  lexLt lhs.elems rhs.elems

/-- Embeds `operator>` — `rhs < lhs`. -/
def vecGt [LT α] [DecidableRel (fun a b : α => a < b)] (lhs rhs : SimpleVector α) : Bool :=
  vecLt rhs lhs

/-- The class invariant of the data model: `0 ≤ size ≤ capacity`
(the lower bound is automatic for `Nat`). -/
def Inv (s : SimpleVector α) : Prop :=
  s.elems.length ≤ s.capacity

instance (s : SimpleVector α) : Decidable (Inv s) := by
  unfold Inv
  infer_instance

/-- Embeds `N` sequential `PushBack` calls starting from the default-constructed
vector (the pushed values are irrelevant to size and capacity; `0` is used). -/
def PushN : Nat → SimpleVector Int
  | 0 => Default
  | n + 1 => PushBack (PushN n) 0

end SimpleVector

open SimpleVector

/-! ## Helper lemmas -/

theorem rangesEqual_eq_true_iff {α : Type} [DecidableEq α] (l1 l2 : List α) :
    rangesEqual l1 l2 = true ↔ l1 = l2 := by
  induction l1 generalizing l2 with
  | nil => cases l2 <;> simp [rangesEqual]
  | cons a as ih =>
    cases l2 with
    | nil => simp [rangesEqual]
    | cons b bs => by_cases hab : a = b <;> simp [rangesEqual, hab, ih]

theorem vecEq_eq_true_iff {α : Type} [DecidableEq α] (a b : SimpleVector α) :
    vecEq a b = true ↔ a.elems = b.elems := by
  by_cases h : a.elems.length = b.elems.length
  · simpa [vecEq, h] using rangesEqual_eq_true_iff a.elems b.elems
  · simp only [vecEq, if_neg h]
    constructor
    · intro hf; cases hf
    · intro he; exact absurd (congrArg List.length he) h

theorem lexLt_eq_true_iff (as bs : List Int) :
    lexLt as bs = true ↔ List.Lex (fun x y : Int => x < y) as bs := by
  induction as generalizing bs with
  | nil =>
    cases bs with
    | nil =>
      simp only [lexLt]
      constructor
      · intro hf; cases hf
      · intro h; cases h
    | cons b bs =>
      simp only [lexLt]
      constructor
      · intro _; exact List.Lex.nil
      · intro _; trivial
  | cons a as ih =>
    cases bs with
    | nil =>
      simp only [lexLt]
      constructor
      · intro hf; cases hf
      · intro h; cases h
    | cons b bs =>
      by_cases hab : a < b
      · simp only [lexLt, if_pos hab]
        constructor
        · intro _; exact List.Lex.rel hab
        · intro _; trivial
      · by_cases hba : b < a
        · simp only [lexLt, if_neg hab, if_pos hba]
          constructor
          · intro hf; cases hf
          · intro h
            cases h with
            | cons h => exact absurd hba (lt_irrefl a)
            | rel h => exact absurd h hab
        · have heq : a = b := le_antisymm (not_lt.mp hba) (not_lt.mp hab)
          subst heq
          simp only [lexLt, if_neg hab, if_neg hba]
          rw [ih]
          constructor
          · intro h; exact List.Lex.cons h
          · intro h
            cases h with
            | cons h => exact h
            | rel h => exact absurd h hab

theorem lex_append_cons (l : List Int) (x : Int) (cs : List Int) :
    List.Lex (fun a b : Int => a < b) l (l ++ x :: cs) := by
  induction l with
  | nil => exact List.Lex.nil
  | cons a as ih => exact List.Lex.cons ih

theorem PushBack_elems {α : Type} (s : SimpleVector α) (v : α) :
    (PushBack s v).elems = s.elems ++ [v] := by
  simp only [PushBack, Reallocate]
  split <;> split <;> rfl

theorem Insert_elems {α : Type} (s : SimpleVector α) (i : Nat) (v : α) :
    (Insert s i v).1.elems = s.elems.take i ++ v :: s.elems.drop i := by
  simp only [SimpleVector.Insert]
  split <;> rfl

theorem Insert_idx {α : Type} (s : SimpleVector α) (i : Nat) (v : α) :
    (Insert s i v).2 = i := by
  simp only [SimpleVector.Insert]
  split <;> rfl

example : (PushN 3).capacity = 4 := by decide
example : (PushN 3).elems.length = 3 := by decide
example : (PushN 5).capacity = 8 := by decide
example : (PushN 8).capacity = 8 := by decide
example : vecEq (⟨[1, 2, 3], 3⟩ : SimpleVector Int) ⟨[1, 2, 3], 3⟩ = true := by decide
example : vecLt (⟨[1, 2], 2⟩ : SimpleVector Int) ⟨[1, 2, 3], 3⟩ = true := by decide
example : vecGt (⟨[1, 3], 2⟩ : SimpleVector Int) ⟨[1, 2, 9], 3⟩ = true := by decide
example : (MoveAssign (⟨[1], 1⟩ : SimpleVector Int)).2.1 = 1 := by decide
example :
    (Erase (Insert (⟨[1, 2, 3], 3⟩ : SimpleVector Int) 1 99).1
      (Insert (⟨[1, 2, 3], 3⟩ : SimpleVector Int) 1 99).2).1.elems = [1, 2, 3] := by
  decide

/-! ## Claims -/

/-- C3: the checked access `At(index)` raises `OutOfRange` if and only if
`index ≥ size_`; for `index < size_` it returns the element at position
`index`.  (`At` reads `size_` and `items_[index]` only, so the vector is
unchanged — the embedding makes this literal by being a pure function.) -/
theorem c3_At_out_of_range_iff (s : SimpleVector Int) (index : Nat) :
    (At s index = Except.error AccessError.outOfRange ↔ GetSize s ≤ index) ∧
    ∀ h : index < GetSize s, At s index = Except.ok (s.elems.get ⟨index, h⟩) := by
  unfold GetSize
  by_cases h : s.elems.length ≤ index
  · constructor
    · rw [At, dif_pos h]
      simp [h]
    · intro hlt; omega
  · constructor
    · rw [At, dif_neg h]
      constructor
      · intro hf; cases hf
      · intro hle; omega
    · intro hlt
      rw [At, dif_neg h]

/-- Witness for C3 at a concrete input. -/
theorem c3_At_out_of_range_iff_witness :
    At (⟨[5], 1⟩ : SimpleVector Int) 0 = Except.ok 5 ∧
    At (⟨[5], 1⟩ : SimpleVector Int) 1 = Except.error AccessError.outOfRange :=
  ⟨(c3_At_out_of_range_iff ⟨[5], 1⟩ 0).2 (by decide),
   (c3_At_out_of_range_iff ⟨[5], 1⟩ 1).1.mpr (by decide)⟩

/-- C7: for `k ≤ size_`, `Resize(k)` sets the size to `k`, keeps every
element at positions `[0, k)` (the new element list is exactly the `k`-prefix
of the old one), and leaves the capacity unchanged. -/
theorem c7_Resize_shrink (s : SimpleVector Int) (k : Nat)
    (hinv : Inv s) (hk : k ≤ GetSize s) :
    GetSize (Resize s k) = k ∧
    (Resize s k).elems = s.elems.take k ∧
    (∀ i, i < k → (Resize s k).elems[i]? = s.elems[i]?) ∧
    GetCapacity (Resize s k) = GetCapacity s := by
  unfold SimpleVector.Inv GetSize at *
  have hcap : ¬ s.capacity < k := by omega
  have hlen : ¬ s.elems.length < k := by omega
  have helems : (Resize s k).elems = s.elems.take k := by
    simp [Resize, hcap, hlen]
  refine ⟨?_, helems, ?_, ?_⟩
  · rw [helems]; simp [List.length_take]; omega
  · intro i hi
    rw [helems, List.getElem?_take, if_pos hi]
  · simp [Resize, hcap, hlen, GetCapacity]

/-- Witness for C7 at a concrete input. -/
theorem c7_Resize_shrink_witness :
    GetSize (Resize (⟨[1, 2, 3], 4⟩ : SimpleVector Int) 2) = 2 ∧
    (Resize (⟨[1, 2, 3], 4⟩ : SimpleVector Int) 2).elems = [1, 2] ∧
    GetCapacity (Resize (⟨[1, 2, 3], 4⟩ : SimpleVector Int) 2) = 4 := by
  have h := c7_Resize_shrink ⟨[1, 2, 3], 4⟩ 2 (by decide) (by decide)
  exact ⟨h.1, by rw [h.2.1]; rfl, h.2.2.2⟩

/-- C8: the copy constructor produces a vector with
size = capacity = source size, the same elements in order, and the copy
compares equal (`operator==`) to the source.  The source is not an argument
of any mutation here: the copy owns a fresh buffer (`Assign` builds a new
temporary and swaps it in), so later mutation of the copy acts on that
fresh buffer only — in the embedding, values are immutable, which makes
independence automatic. -/
theorem c8_Copy_deep (a : SimpleVector Int) :
    GetSize (Copy a) = GetSize a ∧
    GetCapacity (Copy a) = GetSize a ∧
    (Copy a).elems = a.elems ∧
    vecEq (Copy a) a = true := by
  refine ⟨rfl, rfl, rfl, ?_⟩
  rw [vecEq_eq_true_iff]
  rfl

/-- C10: `PopBack` (non-empty) and `Erase` (valid position) keep the
capacity; every element strictly before the affected position is unchanged;
after `Erase(i)` the element formerly at position `j ∈ [i+1, size)` is found
at position `j - 1`. -/
theorem c10_PopBack_Erase_frame (s : SimpleVector Int) :
    (GetSize s ≠ 0 →
      GetCapacity (PopBack s) = GetCapacity s ∧
      GetSize (PopBack s) = GetSize s - 1 ∧
      ∀ i, i < GetSize s - 1 → (PopBack s).elems[i]? = s.elems[i]?) ∧
    (∀ i, i < GetSize s →
      GetCapacity (Erase s i).1 = GetCapacity s ∧
      GetSize (Erase s i).1 = GetSize s - 1 ∧
      (∀ j, j < i → (Erase s i).1.elems[j]? = s.elems[j]?) ∧
      (∀ j, i < j → j < GetSize s → (Erase s i).1.elems[j - 1]? = s.elems[j]?)) := by
  unfold GetSize GetCapacity
  constructor
  · intro hne
    refine ⟨rfl, ?_, ?_⟩
    · simp [PopBack]
    · intro i hi
      simp only [PopBack, List.getElem?_dropLast]
      rw [if_pos hi]
  · intro i hi
    have hlt : (s.elems.take i).length = i := by
      simp [List.length_take]; omega
    refine ⟨rfl, ?_, ?_, ?_⟩
    · simp [Erase, List.length_take, List.length_drop]; omega
    · intro j hj
      simp only [Erase, List.getElem?_append]
      rw [if_pos (by omega)]
      rw [List.getElem?_take, if_pos (by omega)]
    · intro j hji hjs
      simp only [Erase, List.getElem?_append]
      rw [if_neg (by omega), hlt, List.getElem?_drop]
      congr 1
      omega

/-- Witness for C10 at a concrete input. -/
theorem c10_PopBack_Erase_frame_witness :
    GetCapacity (PopBack (⟨[1, 2, 3], 4⟩ : SimpleVector Int)) = 4 ∧
    (Erase (⟨[1, 2, 3], 4⟩ : SimpleVector Int) 1).1.elems[1]? = some 3 := by
  have h := c10_PopBack_Erase_frame ⟨[1, 2, 3], 4⟩
  refine ⟨(h.1 (by decide)).1, ?_⟩
  have h2 := ((h.2 1 (by decide)).2.2.2 2 (by decide) (by decide))
  simpa using h2

/-- C5: for any valid position `i ∈ [0, size]` (end included) and value `v`,
`Erase` applied at the iterator returned by `Insert(i, v)` restores a vector
that compares equal (`operator==`) to the original — in both the
within-capacity branch and the reallocating branch of `Insert`
(the embedding's `Insert` covers both; the proof does not case on them). -/
theorem c5_Insert_Erase_inverse (s : SimpleVector Int) (i : Nat) (v : Int)
    (hi : i ≤ GetSize s) :
    vecEq (Erase (Insert s i v).1 (Insert s i v).2).1 s = true := by
  rw [vecEq_eq_true_iff]
  unfold GetSize at hi
  have htk : (s.elems.take i).length = i := by
    simp [List.length_take]; omega
  simp only [Erase, Insert_idx, Insert_elems]
  rw [List.take_append_eq_append_take, htk,
    List.take_of_length_le (le_of_eq htk), Nat.sub_self, List.take_zero,
    List.append_nil, List.drop_append_eq_append_drop, htk,
    List.drop_eq_nil_of_le (by omega)]
  simp only [List.nil_append]
  have : i + 1 - i = 1 := by omega
  rw [this, List.drop_one, List.tail_cons, List.take_append_drop]

/-- Witness for C5, once without and once with reallocation
(size 3 < capacity 4 fits; size 3 = capacity 3 reallocates). -/
theorem c5_Insert_Erase_inverse_witness :
    vecEq (Erase (Insert (⟨[1, 2, 3], 4⟩ : SimpleVector Int) 1 99).1
      (Insert (⟨[1, 2, 3], 4⟩ : SimpleVector Int) 1 99).2).1 ⟨[1, 2, 3], 4⟩ = true ∧
    vecEq (Erase (Insert (⟨[1, 2, 3], 3⟩ : SimpleVector Int) 3 99).1
      (Insert (⟨[1, 2, 3], 3⟩ : SimpleVector Int) 3 99).2).1 ⟨[1, 2, 3], 3⟩ = true :=
  ⟨c5_Insert_Erase_inverse ⟨[1, 2, 3], 4⟩ 1 99 (by decide),
   c5_Insert_Erase_inverse ⟨[1, 2, 3], 3⟩ 3 99 (by decide)⟩

theorem PushBack_capacity_ne_zero {α : Type} (s : SimpleVector α) (v : α)
    (h : s.capacity ≠ 0) :
    (PushBack s v).capacity =
      if s.elems.length = s.capacity then s.capacity * 2 else s.capacity := by
  simp only [PushBack, Reallocate, if_neg h]
  split <;> rfl

theorem PushBack_capacity_zero {α : Type} (s : SimpleVector α) (v : α)
    (h : s.capacity = 0) (h0 : s.elems.length = 0) :
    (PushBack s v).capacity = 1 := by
  simp [PushBack, Reallocate, h, h0]

theorem PushN_spec (n : Nat) :
    GetSize (PushN n) = n ∧
    ((n = 0 ∧ GetCapacity (PushN n) = 0) ∨
      (1 ≤ n ∧ ∃ k, GetCapacity (PushN n) = 2 ^ k ∧ n ≤ 2 ^ k ∧ 2 ^ k < 2 * n)) := by
  induction n with
  | zero => exact ⟨rfl, Or.inl ⟨rfl, rfl⟩⟩
  | succ n ih =>
    obtain ⟨hsz, hc⟩ := ih
    unfold GetSize GetCapacity at *
    have hsz1 : (PushN (n + 1)).elems.length = n + 1 := by
      show (PushBack (PushN n) 0).elems.length = n + 1
      rw [PushBack_elems]
      simp [hsz]
    refine ⟨hsz1, Or.inr ⟨by omega, ?_⟩⟩
    rcases hc with ⟨hn0, hcap0⟩ | ⟨hn1, k, hck, hnk, hk2⟩
    · subst hn0
      exact ⟨0, by decide, by decide, by decide⟩
    · have hcapne : (PushN n).capacity ≠ 0 := by
        rw [hck]
        exact (Nat.pow_pos (by omega)).ne'
      have hcap := PushBack_capacity_ne_zero (PushN n) 0 hcapne
      show ∃ k, (PushBack (PushN n) 0).capacity = 2 ^ k ∧
        n + 1 ≤ 2 ^ k ∧ 2 ^ k < 2 * (n + 1)
      by_cases he : (PushN n).elems.length = (PushN n).capacity
      · have hne : n = 2 ^ k := by rw [← hsz, ← hck]; exact he
        refine ⟨k + 1, ?_, ?_, ?_⟩
        · rw [hcap, if_pos he, hck, pow_succ]
        · rw [pow_succ]; omega
        · rw [pow_succ]; omega
      · have hlt : n < 2 ^ k := by
          have hne : n ≠ 2 ^ k := by rw [← hsz, ← hck]; exact he
          omega
        exact ⟨k, by rw [hcap, if_neg he, hck], by omega, by omega⟩

/-- C1: starting from the default-constructed vector, `N` sequential
`PushBack` calls give size `N` and, for `N ≥ 1`, a capacity that is the
smallest power of two that is at least `N` (doubling sequence 1, 2, 4, ...);
the first append takes capacity 0 to 1, and a full vector
(`size_ == capacity_ > 0`) reallocates to `capacity_ * 2`. -/
theorem c1_PushBack_growth (n : Nat) (hn : 1 ≤ n) :
    GetSize (PushN n) = n ∧
    (∃ k, GetCapacity (PushN n) = 2 ^ k ∧ n ≤ 2 ^ k ∧
      ∀ m, n ≤ 2 ^ m → 2 ^ k ≤ 2 ^ m) ∧
    GetCapacity (PushN 1) = 1 ∧
    (∀ (s : SimpleVector Int) (v : Int), GetCapacity s = 0 → GetSize s = 0 →
      GetCapacity (PushBack s v) = 1) ∧
    (∀ (s : SimpleVector Int) (v : Int), 0 < GetCapacity s →
      GetSize s = GetCapacity s → GetCapacity (PushBack s v) = GetCapacity s * 2) := by
  obtain ⟨hsz, hc⟩ := PushN_spec n
  rcases hc with ⟨h0, _⟩ | ⟨_, k, hck, hnk, hk2⟩
  · omega
  refine ⟨hsz, ⟨k, hck, hnk, ?_⟩, by decide, ?_, ?_⟩
  · intro m hm
    by_contra hcon
    push_neg at hcon
    have hmk : m < k := by
      by_contra hkm
      push_neg at hkm
      have hle : (2 : Nat) ^ k ≤ 2 ^ m := Nat.pow_le_pow_right (by omega) hkm
      omega
    have h1 : 2 ^ (m + 1) ≤ 2 ^ k := Nat.pow_le_pow_right (by omega) (by omega)
    have h2 : 2 ^ (m + 1) = 2 * 2 ^ m := by rw [pow_succ]; ring
    omega
  · intro s v h1 h2
    exact PushBack_capacity_zero s v h1 h2
  · intro s v h1 h2
    unfold GetCapacity GetSize at *
    rw [PushBack_capacity_ne_zero s v (by omega), if_pos h2]

/-- Witness for C1 at `N = 5` (capacity 8) and a concrete full vector. -/
theorem c1_PushBack_growth_witness :
    GetSize (PushN 5) = 5 ∧
    GetCapacity (PushBack (⟨[1, 2], 2⟩ : SimpleVector Int) 3) = 4 := by
  have h := c1_PushBack_growth 5 (by decide)
  refine ⟨h.1, ?_⟩
  have h2 := h.2.2.2.2 ⟨[1, 2], 2⟩ 3 (by decide) (by decide)
  simpa using h2

/-- C6: `size ≤ capacity`, with capacity the length of the owned buffer
(the lower bound `0 ≤ size` is inherent in `Nat`), holds for every
constructed vector and is preserved by every public operation — except the
defaulted move assignment.  There the target satisfies the invariant, but
the source of `b = std::move(a)` with `a = {1}` ends up reporting
`size_ = 1` and `capacity_ = 1` while the buffer it still owns has length 0
(ownership was transferred away), so `size ≤ length of owned buffer` fails:
the invariant, as the claim states it, is broken by move assignment.  The
final conjunct evaluates the code at that failing input. -/
theorem c6_size_le_capacity :
    Inv (Default : SimpleVector Int) ∧
    (∀ n : Nat, Inv (FromCount n : SimpleVector Int)) ∧
    (∀ (n : Nat) (v : Int), Inv (FromCountValue n v)) ∧
    (∀ l : List Int, Inv (FromList l)) ∧
    (∀ c : Nat, Inv (FromReserve c : SimpleVector Int)) ∧
    (∀ a : SimpleVector Int, Inv (Copy a)) ∧
    (∀ a : SimpleVector Int, Inv (CopyAssign a)) ∧
    (∀ s : SimpleVector Int, Inv s →
      (∀ v, Inv (PushBack s v)) ∧
      (∀ i v, i ≤ GetSize s → Inv (Insert s i v).1) ∧
      (∀ i, i < GetSize s → Inv (Erase s i).1) ∧
      (GetSize s ≠ 0 → Inv (PopBack s)) ∧
      (∀ k, Inv (Resize s k)) ∧
      (∀ c, Inv (Reserve s c)) ∧
      Inv (Clear s) ∧
      Inv (MoveCtor s).1 ∧ Inv (MoveCtor s).2 ∧
      Inv (MoveAssign s).1 ∧
      (∀ t : SimpleVector Int, Inv t → Inv (Swap s t).1 ∧ Inv (Swap s t).2)) ∧
    ((MoveAssignSrcState (⟨[1], 1⟩ : SimpleVector Int)).1 = 1 ∧
      (MoveAssignSrcState (⟨[1], 1⟩ : SimpleVector Int)).2.1 = 1 ∧
      (MoveAssignSrcState (⟨[1], 1⟩ : SimpleVector Int)).2.2 = 0 ∧
      ¬ (MoveAssignSrcState (⟨[1], 1⟩ : SimpleVector Int)).1 ≤
        (MoveAssignSrcState (⟨[1], 1⟩ : SimpleVector Int)).2.2) := by
  refine ⟨by decide, ?_, ?_, ?_, ?_, ?_, ?_, ?_, by decide⟩
  · intro n; simp [SimpleVector.Inv, FromCount]
  · intro n v; simp [SimpleVector.Inv, FromCountValue]
  · intro l; simp [SimpleVector.Inv, FromList]
  · intro c
    unfold SimpleVector.Inv FromReserve Reserve Reallocate Default
    split_ifs <;> simp
  · intro a; simp [SimpleVector.Inv, Copy]
  · intro a; simp [SimpleVector.Inv, CopyAssign, Copy]
  · intro s hs
    unfold SimpleVector.Inv at hs
    refine ⟨?_, ?_, ?_, ?_, ?_, ?_, ?_, ?_, ?_, ?_, ?_⟩
    · intro v
      unfold SimpleVector.Inv
      rw [show (PushBack s v).elems.length = s.elems.length + 1 from
        by rw [PushBack_elems]; simp]
      by_cases h0 : s.capacity = 0
      · have hl : s.elems.length = 0 := by omega
        rw [PushBack_capacity_zero s v h0 hl]
        omega
      · rw [PushBack_capacity_ne_zero s v h0]
        split_ifs with he <;> omega
    · intro i v hi
      unfold SimpleVector.Inv GetSize at *
      simp only [SimpleVector.Insert]
      split_ifs <;> simp [List.length_take, List.length_drop] <;> omega
    · intro i hi
      unfold SimpleVector.Inv GetSize at *
      simp [SimpleVector.Erase, List.length_take, List.length_drop]
      omega
    · intro hne
      unfold SimpleVector.Inv
      simp [PopBack]
      omega
    · intro k
      unfold SimpleVector.Inv
      simp only [Resize, Reallocate]
      split_ifs <;>
        simp [List.length_take, List.length_drop, List.length_append,
          List.length_replicate] <;>
        omega
    · intro c
      unfold SimpleVector.Inv Reserve Reallocate
      split_ifs with h
      · exact le_of_lt (lt_of_le_of_lt hs h)
      · exact hs
    · unfold SimpleVector.Inv Clear
      simp
    · exact hs
    · exact Nat.le_refl 0
    · exact hs
    · intro t ht
      exact ⟨ht, hs⟩

/-- Witness for C6 at concrete inputs, discharging the invariant and
precondition hypotheses. -/
theorem c6_size_le_capacity_witness :
    Inv (PushBack (⟨[1, 2], 4⟩ : SimpleVector Int) 7) ∧
    Inv (Insert (⟨[1, 2], 4⟩ : SimpleVector Int) 1 7).1 ∧
    Inv (Erase (⟨[1, 2], 4⟩ : SimpleVector Int) 0).1 ∧
    Inv (Resize (⟨[1, 2], 4⟩ : SimpleVector Int) 9) ∧
    Inv (Swap (⟨[1, 2], 4⟩ : SimpleVector Int) ⟨[3], 2⟩).1 := by
  have h := c6_size_le_capacity.2.2.2.2.2.2.2.1 ⟨[1, 2], 4⟩ (by decide)
  exact ⟨h.1 7, h.2.1 1 7 (by decide), h.2.2.1 0 (by decide),
    h.2.2.2.2.1 9, (h.2.2.2.2.2.2.2.2.2.2 ⟨[3], 2⟩ (by decide)).1⟩

/-- C9: `operator==` is true iff the sizes agree and the elements agree
pairwise in order (hence reflexive); `operator<` is exactly lexicographic
ordering (`List.Lex` with strict comparison), under which a strict prefix is
less; and the three concrete examples from the specification hold. -/
theorem c9_eq_lex_order :
    (∀ a b : SimpleVector Int, vecEq a b = true ↔
      (GetSize a = GetSize b ∧ ∀ (i : Nat) (h1 : i < GetSize a)
        (h2 : i < GetSize b), a.elems.get ⟨i, h1⟩ = b.elems.get ⟨i, h2⟩)) ∧
    (∀ a : SimpleVector Int, vecEq a a = true) ∧
    (∀ a b : SimpleVector Int, vecLt a b = true ↔
      List.Lex (fun x y : Int => x < y) a.elems b.elems) ∧
    (∀ a b : SimpleVector Int, (∃ c, c ≠ [] ∧ b.elems = a.elems ++ c) →
      vecLt a b = true) ∧
    vecEq (⟨[1, 2, 3], 3⟩ : SimpleVector Int) ⟨[1, 2, 3], 3⟩ = true ∧
    vecLt (⟨[1, 2], 2⟩ : SimpleVector Int) ⟨[1, 2, 3], 3⟩ = true ∧
    vecGt (⟨[1, 3], 2⟩ : SimpleVector Int) ⟨[1, 2, 9], 3⟩ = true := by
  refine ⟨?_, ?_, ?_, ?_, by decide, by decide, by decide⟩
  · intro a b
    rw [vecEq_eq_true_iff]
    exact List.ext_get_iff
  · intro a
    rw [vecEq_eq_true_iff]
  · intro a b
    exact lexLt_eq_true_iff a.elems b.elems
  · rintro a b ⟨c, hc, hb⟩
    rw [show vecLt a b = lexLt a.elems b.elems from rfl, lexLt_eq_true_iff, hb]
    cases c with
    | nil => exact absurd rfl hc
    | cons x cs => exact lex_append_cons a.elems x cs

/-- Witness for C9: the strict-prefix clause at a concrete input. -/
theorem c9_eq_lex_order_witness :
    vecLt (⟨[4], 1⟩ : SimpleVector Int) ⟨[4, 5], 2⟩ = true :=
  c9_eq_lex_order.2.2.2.1 ⟨[4], 1⟩ ⟨[4, 5], 2⟩ ⟨[5], by decide, by decide⟩

/-- C2: the move constructor empties the source
(`std::exchange(other.size_, 0)` and likewise for `capacity_`) and the
destination takes the pre-move value.  The move assignment, however, is
`= default`: a memberwise move in which the scalar members `size_` and
`capacity_` are merely copied, so after `b = std::move(a)` with `a = {1}`
the source still reports size 1 and capacity 1 (while its buffer was
transferred away) — the code contradicts the claimed empty (0, 0) source. -/
theorem c2_move_semantics :
    (∀ a : SimpleVector Int, (MoveCtor a).1 = a ∧
      GetSize (MoveCtor a).2 = 0 ∧ GetCapacity (MoveCtor a).2 = 0) ∧
    (∀ a : SimpleVector Int, (MoveAssign a).1 = a) ∧
    (MoveAssign (⟨[1], 1⟩ : SimpleVector Int)).2.1 = 1 ∧
    (MoveAssign (⟨[1], 1⟩ : SimpleVector Int)).2.2 = 1 :=
  ⟨fun _ => ⟨rfl, rfl, rfl⟩, fun _ => rfl, rfl, rfl⟩

/-- C4: the mutable `operator[]` asserts `index < size_` and under that
precondition returns exactly the element the checked accessor `At` returns,
and (given the class invariant) the index is also within the buffer.  The
`const` overload instead asserts `index < size`: `size` is not a name
declared in the class (the member is `size_`), so the constant access path
does not check the live size — the defect the specification flags. -/
theorem c4_mutable_subscript (s : SimpleVector Int) (index : Nat)
    (h : index < GetSize s) :
    At s index = Except.ok (GetUnchecked s index h) ∧
    (Inv s → index < GetCapacity s) := by
  constructor
  · rw [At, dif_neg (by unfold GetSize at h; omega)]
    rfl
  · intro hinv
    unfold SimpleVector.Inv GetSize GetCapacity at *
    omega

/-- Witness for C4 at a concrete input. -/
theorem c4_mutable_subscript_witness :
    At (⟨[9, 8], 2⟩ : SimpleVector Int) 1 =
      Except.ok (GetUnchecked (⟨[9, 8], 2⟩ : SimpleVector Int) 1 (by decide)) :=
  (c4_mutable_subscript ⟨[9, 8], 2⟩ 1 (by decide)).1
